import Mathlib

/-!
Verification of the filtering-and-export pipeline of `repo2md.py`
(class `RepositoryExporter`): configuration resolution with fallback
candidates (`load_config`), exclusion matching against configured
directories and `.gitignore` patterns (`is_excluded`), file admission
(`is_file_valid`), and the `os.walk`-based traversal and Markdown
emission (`export`).

The Python code manipulates paths as plain strings (`str.startswith`,
`os.path.join`, `os.path.relpath`, `os.path.splitext`, `fnmatch.fnmatch`),
so the embedding models paths as `String` and gives structurally
recursive models of each of those library functions, faithful to their
CPython implementations on the inputs the program feeds them
(absolute, already-normalized POSIX paths).  Machine-independent data
(sizes) are `Nat`.  The filesystem seen by `os.walk` is a finite tree
of named directory entries; file reads and stats always succeed in the
model (a file present in the tree is a regular, readable file).
-/

/-- Does the character list `s` begin with the character list `p`? -/
def startsWithChars : List Char → List Char → Bool
  | _, [] => true
  | [], _ :: _ => false
  | c :: cs, d :: ds => c == d && startsWithChars cs ds

/-- Model of Python `s.startswith(p)` (raw string prefix test). -/
def strStartsWith (s p : String) : Bool := startsWithChars s.data p.data

/-- Model of Python `s.endswith(p)`. -/
def strEndsWith (s p : String) : Bool := startsWithChars s.data.reverse p.data.reverse

/-- Model of Python `s[:-1]` (drop the final character). -/
def strDropLast (s : String) : String := String.mk s.data.dropLast

/-- Model of Python `s.lower()` on the ASCII strings the program uses. -/
def strToLower (s : String) : String := String.mk (s.data.map Char.toLower)

/-- Split a character list at every occurrence of `sep`. -/
def splitChars (sep : Char) : List Char → List (List Char)
  | [] => [[]]
  | c :: cs =>
      if c == sep then [] :: splitChars sep cs
      else
        match splitChars sep cs with
        | [] => [[c]]
        | h :: t => (c :: h) :: t

/-- The nonempty `/`-separated components of a path, as in
`[x for x in path.split(sep) if x]` inside `posixpath.relpath`. -/
def pathComponents (p : String) : List String :=
  ((splitChars '/' p.data).map String.mk).filter (fun c => c != "")

/-- Length of the longest common leading run of two component lists
(`os.path.commonprefix` on split paths). -/
def commonLen : List String → List String → Nat
  | a :: as, b :: bs => if a == b then commonLen as bs + 1 else 0
  | _, _ => 0

/-- Join a list of components with a separator string. -/
def joinSep (sep : String) : List String → String
  | [] => ""
  | [x] => x
  | x :: y :: rest => x ++ sep ++ joinSep sep (y :: rest)

/-- Concatenate a list of strings. -/
def strJoin : List String → String
  | [] => ""
  | s :: rest => s ++ strJoin rest

/-- Model of `os.path.relpath(path, start)` for absolute normalized
POSIX paths: split both into nonempty components, drop the common
run, prepend one `..` per remaining `start` component. -/
def relpath (path start : String) : String :=
  let pl := pathComponents path
  let sl := pathComponents start
  let i := commonLen sl pl
  let rel := List.replicate (sl.length - i) ".." ++ pl.drop i
  if rel.isEmpty then "." else joinSep "/" rel

/-- Model of `os.path.join(a, b)` (POSIX, two arguments). -/
def joinPath (a b : String) : String :=
  if strStartsWith b "/" then b
  else if a == "" || strEndsWith a "/" then a ++ b
  else a ++ "/" ++ b

/-- The extension part of `os.path.splitext(p)`: everything from the
last dot of the basename, provided some character of the basename
before that dot is not itself a dot (so `.gitignore` has no
extension), exactly as in CPython `genericpath._splitext`. -/
def splitextExt (p : String) : String :=
  let rb := p.data.reverse.takeWhile (fun c => c != '/')
  if rb.any (fun c => c == '.') then
    if ((rb.dropWhile (fun c => c != '.')).drop 1).any (fun c => c != '.') then
      String.mk ('.' :: (rb.takeWhile (fun c => c != '.')).reverse)
    else ""
  else ""

/-!
Model of `fnmatch.fnmatch(name, pattern)`.  On POSIX `normcase` is the
identity, and `fnmatch.translate` turns the pattern into an anchored
regex: `*` becomes `.*` (matching any characters, `/` included), `?`
becomes `.`, `[...]` becomes a character class (leading `!` negates, a
`]` right after the opening is literal, `a-b` is a range, an `[`
without a closing `]` is a literal `[`), and every other character
matches itself.  The pattern is translated to a token list first, then
matched against the whole name.
-/

/-- One token of a translated glob pattern. -/
inductive GlobTok where
  | star
  | anyChar
  | lit (c : Char)
  | cls (negated : Bool) (ranges : List (Char × Char))
deriving DecidableEq

/-- Scan up to the first `]`, returning the content before it and the
remainder after it. -/
def bracketScan : List Char → Option (List Char × List Char)
  | [] => none
  | ']' :: rest => some ([], rest)
  | c :: rest =>
      match bracketScan rest with
      | none => none
      | some q => some (c :: q.1, q.2)

/-- Split the part of the pattern following `[` into the class content
and the remainder, honoring the special leading `!` and leading `]`
of `fnmatch.translate`. -/
def bracketSplit : List Char → Option (List Char × List Char)
  | '!' :: ']' :: rest => (bracketScan rest).map (fun q => ('!' :: ']' :: q.1, q.2))
  | '!' :: rest => (bracketScan rest).map (fun q => ('!' :: q.1, q.2))
  | ']' :: rest => (bracketScan rest).map (fun q => (']' :: q.1, q.2))
  | rest => bracketScan rest

/-- Interpret bracket content as ranges: `a-b` is a range, any other
character stands for itself. -/
def parseRanges : List Char → List (Char × Char)
  | [] => []
  | a :: '-' :: b :: rest => (a, b) :: parseRanges rest
  | c :: rest => (c, c) :: parseRanges rest

/-- Does character `c` fall in one of the ranges? -/
def matchClass (ranges : List (Char × Char)) (c : Char) : Bool :=
  ranges.any (fun r => r.1 ≤ c && c ≤ r.2)

/-- Translate a glob pattern into tokens.  The fuel argument (the
pattern length at the top call) only serves termination: every step
consumes at least one pattern character. -/
def translateGo : Nat → List Char → List GlobTok
  | 0, _ => []
  | _ + 1, [] => []
  | fuel + 1, '*' :: ps => GlobTok.star :: translateGo fuel ps
  | fuel + 1, '?' :: ps => GlobTok.anyChar :: translateGo fuel ps
  | fuel + 1, '[' :: ps =>
      match bracketSplit ps with
      | none => GlobTok.lit '[' :: translateGo fuel ps
      | some q =>
          match q.1 with
          | '!' :: stuff => GlobTok.cls true (parseRanges stuff) :: translateGo fuel q.2
          | stuff => GlobTok.cls false (parseRanges stuff) :: translateGo fuel q.2
  | fuel + 1, c :: ps => GlobTok.lit c :: translateGo fuel ps

/-- Translate a whole glob pattern. -/
def translateGlob (p : List Char) : List GlobTok := translateGo p.length p

/-- Match a token list against a whole name (anchored at both ends,
as `fnmatch`'s regex is).  A `star` matches when the rest of the
tokens match some suffix of the name. -/
def matchToks : List GlobTok → List Char → Bool
  | [], name => name.isEmpty
  | GlobTok.star :: ts, name => name.tails.any (fun suffix => matchToks ts suffix)
  | GlobTok.anyChar :: ts, name =>
      match name with
      | [] => false
      | _ :: rest => matchToks ts rest
  | GlobTok.lit c :: ts, name =>
      match name with
      | [] => false
      | d :: rest => c == d && matchToks ts rest
  | GlobTok.cls neg ranges :: ts, name =>
      match name with
      | [] => false
      | d :: rest => (matchClass ranges d != neg) && matchToks ts rest

/-- Model of `fnmatch.fnmatch(name, pat)` (case-sensitive, POSIX). -/
def fnmatch (name pat : String) : Bool := matchToks (translateGlob pat.data) name.data

/-!
Configuration (`load_config`).  A YAML document, once parsed, is a
dictionary from which the exporter reads `max_file_size`,
`excluded_dirs` and `included_extensions` with `dict.get` defaults;
`Config` records each key as optional.  Reading one candidate path can
end four ways, matching the branches of the Python loop:
`FileNotFoundError` (skipped), `yaml.YAMLError` (logged and skipped),
an empty/null document (falsy `config`, logged and skipped), or a
successful non-empty parse (returned immediately).
-/

/-- A parsed configuration document. -/
structure Config where
  max_file_size : Option Nat
  excluded_dirs : Option (List String)
  included_extensions : Option (List (String × String))
deriving DecidableEq

/-- Outcome of trying one configuration candidate path. -/
inductive ConfigRead where
  | missing
  | parseError
  | emptyDoc
  | ok (c : Config)
deriving DecidableEq

/-- The built-in default configuration returned by `load_config` when
every candidate fails (source lines 84-108). -/
def default_config : Config :=
  { max_file_size := some 1048576,
    excluded_dirs := some [".venv", "node_modules", "__pycache__", ".git"],
    included_extensions := some
      [(".py", "python"), (".js", "javascript"), (".ts", "typescript"),
       (".tsx", "react"), (".jsx", "react"), (".html", "html"),
       (".css", "css"), (".json", "json"), (".yaml", "yaml"),
       (".yml", "yaml"), (".md", "markdown"), (".sh", "bash"),
       (".sql", "sql"), (".java", "java"), (".cpp", "cpp"),
       (".c", "c"), (".h", "c"), (".rs", "rust"), (".go", "go")] }

/-- The ordered candidate list of `load_config`: the explicit path
first when given, then `config.yaml` in the current directory, the two
per-user paths (with `~` expanded to the home directory), and the
system-wide path. -/
def configCandidates (explicit : Option String) (home : String) : List String :=
  (match explicit with
   | some p => [p]
   | none => []) ++
  ["config.yaml",
   home ++ "/.config/repo2md/config.yaml",
   home ++ "/.repo2md/config.yaml",
   "/etc/repo2md/config.yaml"]

/-- Try candidates in order: a missing, malformed, or empty candidate
is skipped; the first successful non-empty parse is returned; if none
succeeds, the built-in default is returned. -/
def tryConfigs (read : String → ConfigRead) : List String → Config
  | [] => default_config
  | p :: rest =>
      match read p with
      | ConfigRead.ok c => c
      | _ => tryConfigs read rest

/-- Model of `RepositoryExporter.load_config`. -/
def load_config (explicit : Option String) (home : String)
    (read : String → ConfigRead) : Config :=
  tryConfigs read (configCandidates explicit home)

/-- `dict.get` on the ordered association list modelling a Python
dictionary (keys are unique, so first match is the match). -/
def dictGet (d : List (String × String)) (k : String) : Option String :=
  (d.find? (fun kv => kv.1 == k)).map Prod.snd

/-!
The exporter state after `__init__`: the resolved source path, the
effective excluded directories (`cli_excluded_dirs or
config.get("excluded_dirs", [])` — Python `or`, so an empty or absent
explicit list falls back to the configuration), the size limit
(`config.get("max_file_size", 1048576)`), the extension dictionary
(`config.get("included_extensions", {})`), and the loaded
`.gitignore` patterns.
-/

/-- The fields of `RepositoryExporter` the filtering pipeline reads. -/
structure Exporter where
  source : String
  excluded_dirs : List String
  max_file_size : Nat
  included_extensions : List (String × String)
  gitignore_patterns : List String

/-- Python `cli or fallback` on an optional list: `None` and the empty
list are falsy, any non-empty list is returned as is. -/
def pyOrList (cli : Option (List String)) (fallback : List String) : List String :=
  match cli with
  | none => fallback
  | some l => if l.isEmpty then fallback else l

/-- Model of the attribute initialization in
`RepositoryExporter.__init__` (source lines 34-43). -/
def mkExporter (source : String) (cli : Option (List String)) (cfg : Config)
    (patterns : List String) : Exporter :=
  { source := source,
    excluded_dirs := pyOrList cli (cfg.excluded_dirs.getD []),
    max_file_size := cfg.max_file_size.getD 1048576,
    included_extensions := cfg.included_extensions.getD [],
    gitignore_patterns := patterns }

/-- Model of `RepositoryExporter.is_excluded` (source lines 158-182):
first the configured excluded directories, by raw string prefix of
`os.path.join(source, excluded_dir)` against the path; then each
`.gitignore` pattern against the path relative to the source root — a
pattern ending in `/` is stripped of the slash and tested as a raw
string prefix of the relative path and then as a glob, any other
pattern is tested as a glob. -/
def is_excluded (ex : Exporter) (path : String) : Bool :=
  if ex.excluded_dirs.any (fun d => strStartsWith path (joinPath ex.source d)) then
    true
  else
    let relative_path := relpath path ex.source
    ex.gitignore_patterns.any (fun pat =>
      if strEndsWith pat "/" then
        strStartsWith relative_path (strDropLast pat) ||
          fnmatch relative_path (strDropLast pat)
      else
        fnmatch relative_path pat)

/-- Model of `RepositoryExporter.is_file_valid` (source lines
184-207) for a file that exists with the given size: rejected when
excluded, when larger than `max_file_size`, or when its lowercased
`splitext` extension is not a key of `included_extensions`. -/
def is_file_valid (ex : Exporter) (file_path : String) (size : Nat) : Bool :=
  if is_excluded ex file_path then false
  else if size > ex.max_file_size then false
  else if ex.included_extensions.any
      (fun kv => kv.1 == strToLower (splitextExt file_path)) then true
  else false

/-- Model of `RepositoryExporter.get_language_from_extension`:
dictionary lookup with empty-string default. -/
def get_language_from_extension (ex : Exporter) (file_extension : String) : String :=
  (dictGet ex.included_extensions file_extension).getD ""

example :
    is_excluded
      { source := "/src", excluded_dirs := [], max_file_size := 1048576,
        included_extensions := [], gitignore_patterns := ["build/"] }
      "/src/buildx/out.py" = true := by decide

example :
    is_excluded
      { source := "/repo", excluded_dirs := [".git"], max_file_size := 1048576,
        included_extensions := [], gitignore_patterns := [] }
      "/repo/.github/ci.yml" = true := by decide

/-!
The filesystem and the traversal of `export` (source lines 215-259).
A directory's contents are a finite sequence of entries, each a
regular file (with name, size and content) or a subdirectory.
`os.walk(source_dir)` enumerates top-down: it yields the current
directory's file list, then descends into the subdirectories that
survived the in-place pruning `dirs[:] = [d for d in dirs if not
self.is_excluded(os.path.join(root, d))]` — here each subdirectory is
tested with the same predicate immediately before descent, which is
that pruning.  For every yielded file the code computes
`os.path.join(root, file)`, runs `is_file_valid`, and on acceptance
writes a section built from the path relative to the source root, the
language tag looked up from the lowercased extension of the entry
name, and the file content.
-/

/-- A file entry of the walked tree. -/
structure FileEnt where
  name : String
  size : Nat
  content : String
deriving DecidableEq

/-- The entry sequence of a directory: each entry is a regular file or
a subdirectory with its own entries. -/
inductive FS where
  | nilEntries
  | fileEntry (name : String) (size : Nat) (content : String) (rest : FS)
  | dirEntry (name : String) (children : FS) (rest : FS)

/-- The files of one directory level, in entry order, paired with
their `os.path.join(root, file)` paths — the file list of one
`os.walk` triple. -/
def levelFiles (root : String) : FS → List (String × FileEnt)
  | FS.nilEntries => []
  | FS.fileEntry n sz c rest => (joinPath root n, ⟨n, sz, c⟩) :: levelFiles root rest
  | FS.dirEntry _ _ rest => levelFiles root rest

/-- The files yielded by the pruned walk strictly below the current
level: each subdirectory is skipped entirely when `is_excluded` holds
of its path, otherwise its own files and recursively its subtree
follow, in entry order. -/
def walkAux (ex : Exporter) (root : String) : FS → List (String × FileEnt)
  | FS.nilEntries => []
  | FS.fileEntry _ _ _ rest => walkAux ex root rest
  | FS.dirEntry n children rest =>
      (if is_excluded ex (joinPath root n) then []
       else levelFiles (joinPath root n) children ++ walkAux ex (joinPath root n) children)
      ++ walkAux ex root rest

/-- All files the pruned `os.walk` loop of `export` visits (and hence
evaluates with `is_file_valid`), with their absolute paths, in
traversal order. -/
def walkVisited (ex : Exporter) (root : String) (fs : FS) : List (String × FileEnt) :=
  levelFiles root fs ++ walkAux ex root fs

/-- Every file of the tree paired with the chain of directory paths
(from the walk root downward) it lies beneath — the unpruned tree,
used to speak about files under excluded directories. -/
def chainAux (root : String) : FS → List (List String × String)
  | FS.nilEntries => []
  | FS.fileEntry _ _ _ rest => chainAux root rest
  | FS.dirEntry n children rest =>
      (((levelFiles (joinPath root n) children).map
            (fun (q : String × FileEnt) => (([] : List String), q.1)) ++
          chainAux (joinPath root n) children).map
        (fun (q : List String × String) => (joinPath root n :: q.1, q.2)))
      ++ chainAux root rest

/-- Every file path of the (unpruned) tree with its ancestor
directory chain; a file at the top level has the empty chain. -/
def filesWithChain (root : String) (fs : FS) : List (List String × String) :=
  (levelFiles root fs).map (fun (q : String × FileEnt) => (([] : List String), q.1)) ++
    chainAux root fs

/-- One emitted file section of the output document. -/
structure MdSection where
  relative_path : String
  language : String
  content : String
deriving DecidableEq

/-- The Markdown text of one file section, exactly as the two `write`
calls of the loop produce it. -/
def renderSection (s : MdSection) : String :=
  ("## File: `" ++ s.relative_path ++ "`\n\n") ++
  ("```" ++ s.language ++ "\n" ++ s.content ++ "\n```\n\n")

/-- The sections `export` emits: among the visited files, exactly
those accepted by `is_file_valid`, each carrying the path relative to
the source root, the language tag of the lowercased extension of the
entry name, and the file content. -/
def exportSections (ex : Exporter) (source_dir : String) (fs : FS) : List MdSection :=
  (walkVisited ex source_dir fs).filterMap (fun (q : String × FileEnt) =>
    if is_file_valid ex q.1 q.2.size then
      some { relative_path := relpath q.1 source_dir,
             language := get_language_from_extension ex (strToLower (splitextExt q.2.name)),
             content := q.2.content }
    else none)

/-- The body of the output document: the concatenated file sections. -/
def exportBody (ex : Exporter) (source_dir : String) (fs : FS) : String :=
  strJoin ((exportSections ex source_dir fs).map renderSection)

/-- The header block written before the traversal: title, snapshot
time, separator. -/
def snapshotHeader (snapshot_time_str : String) : String :=
  "# Repository Snapshot\n\n" ++
  ("**Snapshot taken on:** " ++ snapshot_time_str ++ "\n\n") ++
  "---\n\n"

/-- Model of `RepositoryExporter.generate_output_filename`. -/
def generate_output_filename (base_name timestamp : String) : String :=
  base_name ++ "_" ++ timestamp ++ ".md"

/-- The Python exceptions `export` can raise that the claims speak
about. -/
inductive PyError where
  | valueError (msg : String)
  | ioError (msg : String)
deriving DecidableEq

/-- Is a run outcome an `IOError`? -/
def isIOErrorResult : Except PyError (String × String) → Bool
  | Except.error (PyError.ioError _) => true
  | _ => false

/-- Model of `RepositoryExporter.export` for a local source: `tree` is
`some` the directory contents when the resolved source directory
exists and `none` otherwise.  The existence check comes first: when it
fails, `export` raises `ValueError` and the output file is never
opened, so the run produces no (filename, document) pair.  Otherwise
the output file is created with the timestamped name and receives the
header followed by the body.  (`snapshot_str` renders the
`snapshot_time` captured in `__init__`; `file_ts` is the separate
clock read of `generate_output_filename`.) -/
def exportRun (ex : Exporter) (tree : Option FS) (source_dir base snapshot_str file_ts : String) :
    Except PyError (String × String) :=
  match tree with
  | none => Except.error (PyError.valueError ("Source directory does not exist: " ++ source_dir))
  | some fs =>
      Except.ok (generate_output_filename base file_ts,
        snapshotHeader snapshot_str ++ exportBody ex source_dir fs)

example :
    walkVisited
      { source := "/s", excluded_dirs := ["build"], max_file_size := 1000,
        included_extensions := [(".py", "python")], gitignore_patterns := [] }
      "/s"
      (FS.dirEntry "build" (FS.fileEntry "x.py" 1 "c" FS.nilEntries)
        (FS.fileEntry "a.py" 10 "print" FS.nilEntries)) =
      [("/s/a.py", ⟨"a.py", 10, "print"⟩)] := by decide

example :
    exportSections
      { source := "/s", excluded_dirs := [], max_file_size := 1000,
        included_extensions := [(".py", "python")], gitignore_patterns := [] }
      "/s"
      (FS.fileEntry "a.py" 10 "print" (FS.fileEntry "b.png" 5 "img" FS.nilEntries)) =
      [{ relative_path := "a.py", language := "python", content := "print" }] := by decide

/-! Helper lemmas. -/

/-- A Boolean `if` is `true` exactly when the taken branch is. -/
theorem ite_bool_eq_true (b x y : Bool) :
    ((if b then x else y) = true) ↔ ((b = true ∧ x = true) ∨ (b = false ∧ y = true)) := by
  cases b <;> simp

/-- `tryConfigs` returns the default when every candidate fails. -/
theorem tryConfigs_all_fail (read : String → ConfigRead) (l : List String)
    (h : ∀ p ∈ l, ∀ c, read p ≠ ConfigRead.ok c) : tryConfigs read l = default_config := by
  induction l with
  | nil => rfl
  | cons p rest ih =>
      have hrest : tryConfigs read rest = default_config :=
        ih (fun q hq c => h q (List.mem_cons_of_mem _ hq) c)
      cases hr : read p with
      | ok c => exact absurd hr (h p (List.mem_cons_self _ _) c)
      | missing => simpa [tryConfigs, hr] using hrest
      | parseError => simpa [tryConfigs, hr] using hrest
      | emptyDoc => simpa [tryConfigs, hr] using hrest

/-- `is_file_valid` unfolded into its three conditions. -/
theorem is_file_valid_iff (ex : Exporter) (p : String) (sz : Nat) :
    is_file_valid ex p sz = true ↔
      (is_excluded ex p = false ∧ sz ≤ ex.max_file_size ∧
        ex.included_extensions.any (fun kv => kv.1 == strToLower (splitextExt p)) = true) := by
  simp only [is_file_valid]
  cases h : is_excluded ex p with
  | true => simp [h]
  | false =>
      simp only [h, if_false, Bool.false_eq_true]
      by_cases h2 : sz > ex.max_file_size
      · simp only [if_pos h2]
        constructor
        · intro hfalse; exact absurd hfalse (by simp)
        · intro hc; omega
      · simp only [if_neg h2]
        have hle : sz ≤ ex.max_file_size := by omega
        cases h3 : ex.included_extensions.any (fun kv => kv.1 == strToLower (splitextExt p)) <;>
          simp [h3, hle]

/-!
Claim theorems.
-/

/-- Claim C4: config resolution tries the candidates in order
(explicit path first, then `./config.yaml`, the per-user paths, the
system path); a missing, empty, or malformed candidate is skipped, and
the first candidate that parses to a non-empty document is returned
immediately with no merging — in particular a malformed explicit
config together with a valid `./config.yaml` yields exactly the
fallback's contents. -/
theorem claim4_config_fallback_chain (p home : String) (read : String → ConfigRead) (c : Config) :
    ((read p = ConfigRead.missing ∨ read p = ConfigRead.parseError ∨
        read p = ConfigRead.emptyDoc) →
      load_config (some p) home read = load_config none home read) ∧
    (read p = ConfigRead.ok c → load_config (some p) home read = c) ∧
    (read p = ConfigRead.parseError → read "config.yaml" = ConfigRead.ok c →
      load_config (some p) home read = c) := by
  refine ⟨?_, ?_, ?_⟩
  · rintro (h | h | h) <;> simp [load_config, configCandidates, tryConfigs, h]
  · intro h
    simp [load_config, configCandidates, tryConfigs, h]
  · intro h1 h2
    simp [load_config, configCandidates, tryConfigs, h1, h2]

/-- A read function for the fallback scenario: the explicit candidate
is malformed, `./config.yaml` parses, everything else is absent. -/
def readW : String → ConfigRead := fun s =>
  if s = "bad.yaml" then ConfigRead.parseError
  else if s = "config.yaml" then
    ConfigRead.ok { max_file_size := some 42, excluded_dirs := some [],
                    included_extensions := some [] }
  else ConfigRead.missing

theorem claim4_witness :
    load_config (some "bad.yaml") "/home/user" readW =
      { max_file_size := some 42, excluded_dirs := some [],
        included_extensions := some [] } :=
  (claim4_config_fallback_chain "bad.yaml" "/home/user" readW _).2.2 (by decide) (by decide)

/-- Claim C5: when every candidate fails to produce a non-empty
document, `load_config` returns the built-in default configuration,
whose size limit is 1048576, whose excluded directories are `.venv`,
`node_modules`, `__pycache__`, `.git`, and whose extension map carries
the listed language entries (`.py` to `python` among them). -/
theorem claim5_default_configuration (explicit : Option String) (home : String)
    (read : String → ConfigRead)
    (h : ∀ p ∈ configCandidates explicit home, ∀ c, read p ≠ ConfigRead.ok c) :
    load_config explicit home read = default_config ∧
    default_config.max_file_size = some 1048576 ∧
    default_config.excluded_dirs = some [".venv", "node_modules", "__pycache__", ".git"] ∧
    (dictGet (default_config.included_extensions.getD []) ".py" = some "python" ∧
     dictGet (default_config.included_extensions.getD []) ".js" = some "javascript" ∧
     dictGet (default_config.included_extensions.getD []) ".ts" = some "typescript" ∧
     dictGet (default_config.included_extensions.getD []) ".tsx" = some "react" ∧
     dictGet (default_config.included_extensions.getD []) ".jsx" = some "react" ∧
     dictGet (default_config.included_extensions.getD []) ".html" = some "html" ∧
     dictGet (default_config.included_extensions.getD []) ".css" = some "css" ∧
     dictGet (default_config.included_extensions.getD []) ".json" = some "json" ∧
     dictGet (default_config.included_extensions.getD []) ".yaml" = some "yaml" ∧
     dictGet (default_config.included_extensions.getD []) ".md" = some "markdown" ∧
     dictGet (default_config.included_extensions.getD []) ".sh" = some "bash" ∧
     dictGet (default_config.included_extensions.getD []) ".sql" = some "sql" ∧
     dictGet (default_config.included_extensions.getD []) ".java" = some "java" ∧
     dictGet (default_config.included_extensions.getD []) ".c" = some "c" ∧
     dictGet (default_config.included_extensions.getD []) ".cpp" = some "cpp" ∧
     dictGet (default_config.included_extensions.getD []) ".h" = some "c" ∧
     dictGet (default_config.included_extensions.getD []) ".rs" = some "rust" ∧
     dictGet (default_config.included_extensions.getD []) ".go" = some "go") :=
  ⟨tryConfigs_all_fail read _ h, by decide, by decide, by decide⟩

theorem claim5_witness :
    load_config none "/home/user" (fun _ => ConfigRead.missing) = default_config :=
  (claim5_default_configuration none "/home/user" (fun _ => ConfigRead.missing)
    (fun _ _ _ h => ConfigRead.noConfusion h)).1

/-- Claim C6, amended: when the resolved source directory does not
exist, `export` fails with `ValueError` (not `IOError`) before any
output is created — the existence check precedes the opening of the
output file, so a failing run produces no output document at all. -/
theorem claim6_amended (ex : Exporter) (source_dir base snapshot_str file_ts : String) :
    exportRun ex none source_dir base snapshot_str file_ts =
      Except.error (PyError.valueError ("Source directory does not exist: " ++ source_dir)) ∧
    ∀ out, exportRun ex none source_dir base snapshot_str file_ts ≠ Except.ok out :=
  ⟨rfl, fun _ h => Except.noConfusion h⟩

/-- An exporter over a missing source directory. -/
def exMissing : Exporter :=
  { source := "/missing", excluded_dirs := [], max_file_size := 1048576,
    included_extensions := [], gitignore_patterns := [] }

/-- The outcome of running export when the source directory does not
exist. -/
def noSourceRun : Except PyError (String × String) :=
  exportRun exMissing none "/missing" "repository" "2024-01-01 00:00:00" "20240101000000"

/-- Claim C6, counterexample: with a missing source directory the run
does not fail with `IOError`; it fails with `ValueError`. -/
theorem claim6_counterexample :
    isIOErrorResult noSourceRun = false ∧
    noSourceRun =
      Except.error (PyError.valueError "Source directory does not exist: /missing") := by
  exact ⟨rfl, rfl⟩

/-- The exporter with the single `.gitignore` pattern `*.log`. -/
def exLog : Exporter :=
  { source := "/src", excluded_dirs := [], max_file_size := 1048576,
    included_extensions := [], gitignore_patterns := ["*.log"] }

/-- Claim C7: under the loaded ignore pattern `*.log`, `is_excluded`
excludes the files with relative paths `app.log` and `logs/app.log`
(the glob `*` also crosses `/`), but not `app.logx`. -/
theorem claim7_star_log_glob :
    is_excluded exLog "/src/app.log" = true ∧
    is_excluded exLog "/src/logs/app.log" = true ∧
    is_excluded exLog "/src/app.logx" = false := by decide

/-- Claim C9: two export runs over the same tree with the same
exporter state differ only in the timestamp header line and the
timestamped output filename — the bodies (the concatenated file
sections) are identical. -/
theorem claim9_deterministic_modulo_clock (ex : Exporter) (fs : FS)
    (source_dir base s₁ s₂ ts₁ ts₂ : String) :
    ∃ body : String,
      exportRun ex (some fs) source_dir base s₁ ts₁ =
        Except.ok (generate_output_filename base ts₁, snapshotHeader s₁ ++ body) ∧
      exportRun ex (some fs) source_dir base s₂ ts₂ =
        Except.ok (generate_output_filename base ts₂, snapshotHeader s₂ ++ body) :=
  ⟨exportBody ex source_dir fs, rfl, rfl⟩

/-- Claim C10: an empty explicit excluded-directory list is falsy in
`cli_excluded_dirs or config.get("excluded_dirs", [])`, so the
exporter falls back to the configuration's list, exactly as when no
explicit list is given; only a non-empty explicit list replaces the
configured exclusions. -/
theorem claim10_empty_cli_excluded_dirs (source : String) (cfg : Config)
    (patterns : List String) :
    (mkExporter source (some []) cfg patterns).excluded_dirs = cfg.excluded_dirs.getD [] ∧
    (mkExporter source none cfg patterns).excluded_dirs = cfg.excluded_dirs.getD [] ∧
    ∀ l : List String, l ≠ [] → (mkExporter source (some l) cfg patterns).excluded_dirs = l := by
  refine ⟨rfl, rfl, ?_⟩
  intro l hl
  cases l with
  | nil => exact absurd rfl hl
  | cons a as => rfl

theorem claim10_witness :
    (mkExporter "/s" (some ["keep"]) default_config []).excluded_dirs = ["keep"] :=
  (claim10_empty_cli_excluded_dirs "/s" default_config []).2.2 ["keep"] (by decide)

/-- The exporter with the single `.gitignore` pattern `build/`. -/
def exBuild : Exporter :=
  { source := "/src", excluded_dirs := [], max_file_size := 1048576,
    included_extensions := [], gitignore_patterns := ["build/"] }

/-- Claim C2, counterexample: under pattern `build/` the code also
excludes `buildx/out.py`, because after stripping the slash it tests
`relative_path.startswith("build")`, a raw string-prefix test, and
`"buildx/out.py"` starts with `"build"`. -/
theorem claim2_counterexample : is_excluded exBuild "/src/buildx/out.py" = true := by decide

/-- Claim C2, amended: for an ignore pattern ending with `/`,
`is_excluded` (with no configured excluded directories and that single
pattern loaded) excludes exactly the paths whose relative form starts,
as a raw string, with the stripped pattern, or glob-matches the
stripped pattern — so `build/` excludes `build/out.py`,
`build/sub/out.py` and also `buildx/out.py`. -/
theorem claim2_amended (ex : Exporter) (pat path : String)
    (hdirs : ex.excluded_dirs = []) (hpats : ex.gitignore_patterns = [pat])
    (hslash : strEndsWith pat "/" = true) :
    is_excluded ex path =
      (strStartsWith (relpath path ex.source) (strDropLast pat) ||
        fnmatch (relpath path ex.source) (strDropLast pat)) := by
  simp [is_excluded, hdirs, hpats, hslash]

theorem claim2_witness :
    is_excluded exBuild "/src/buildx/out.py" =
      (strStartsWith (relpath "/src/buildx/out.py" "/src") (strDropLast "build/") ||
        fnmatch (relpath "/src/buildx/out.py" "/src") (strDropLast "build/")) :=
  claim2_amended exBuild "build/" "/src/buildx/out.py" rfl rfl (by decide)

/-- The exporter with the single configured excluded directory
`.git`. -/
def exGit : Exporter :=
  { source := "/repo", excluded_dirs := [".git"], max_file_size := 1048576,
    included_extensions := [], gitignore_patterns := [] }

/-- Claim C3, counterexample: with excluded directory `.git`, the
sibling directory `.github` is also excluded, because the check is
`path.startswith(os.path.join(source, excluded_dir))` — a raw string
prefix, not a path-component prefix. -/
theorem claim3_counterexample : is_excluded exGit "/repo/.github/workflows.yml" = true := by
  decide

/-- Claim C3, amended: `is_excluded` returns true for a path exactly
when the path starts, as a raw string, with the source root joined
with some configured excluded-directory name (so `.github` beside
excluded `.git` IS excluded), or some ignore pattern matches it (a
trailing-slash pattern by raw string prefix or glob of the stripped
pattern, any other pattern by glob of the relative path); when no rule
matches, the path is not excluded. -/
theorem claim3_amended (ex : Exporter) (path : String) :
    is_excluded ex path = true ↔
      ((∃ d ∈ ex.excluded_dirs, strStartsWith path (joinPath ex.source d) = true) ∨
        (∃ pat ∈ ex.gitignore_patterns,
          (strEndsWith pat "/" = true ∧
            (strStartsWith (relpath path ex.source) (strDropLast pat) = true ∨
              fnmatch (relpath path ex.source) (strDropLast pat) = true)) ∨
          (strEndsWith pat "/" = false ∧ fnmatch (relpath path ex.source) pat = true))) := by
  simp only [is_excluded]
  by_cases hd : ex.excluded_dirs.any (fun d => strStartsWith path (joinPath ex.source d)) = true
  · rw [if_pos hd]
    simp only [List.any_eq_true] at hd
    exact iff_of_true rfl (Or.inl hd)
  · rw [if_neg hd]
    rw [List.any_eq_true]
    constructor
    · rintro ⟨pat, hmem, hf⟩
      refine Or.inr ⟨pat, hmem, ?_⟩
      rcases (ite_bool_eq_true _ _ _).mp hf with ⟨hs, hor⟩ | ⟨hs, hfn⟩
      · refine Or.inl ⟨hs, ?_⟩
        simpa using hor
      · exact Or.inr ⟨hs, hfn⟩
    · rintro (⟨d, hdm, hds⟩ | ⟨pat, hmem, hcase⟩)
      · exact absurd (List.any_eq_true.mpr ⟨d, hdm, hds⟩) hd
      · refine ⟨pat, hmem, ?_⟩
        rcases hcase with ⟨hs, hor⟩ | ⟨hs, hfn⟩
        · exact (ite_bool_eq_true _ _ _).mpr
            (Or.inl ⟨hs, by rcases hor with h | h <;> simp [h]⟩)
        · exact (ite_bool_eq_true _ _ _).mpr (Or.inr ⟨hs, hfn⟩)

/-- Claim C1: among the files of the walked (pruned) source tree —
all of them regular files of the model, each visited exactly once and
evaluated with `is_file_valid` — a file's section appears in the
output document if and only if the file is not matched by any
exclusion rule, its size is at or under `max_file_size`, and its
lowercased extension is a key of `included_extensions`.  The
hypothesis asks the visited files to have pairwise distinct relative
paths, as distinct files of a real filesystem do. -/
theorem claim1_admission_invariant (ex : Exporter) (source_dir : String) (fs : FS)
    (p : String) (f : FileEnt)
    (hnd : ((walkVisited ex source_dir fs).map
        (fun (q : String × FileEnt) => relpath q.1 source_dir)).Nodup)
    (hmem : (p, f) ∈ walkVisited ex source_dir fs) :
    (∃ s ∈ exportSections ex source_dir fs, s.relative_path = relpath p source_dir) ↔
      (is_excluded ex p = false ∧ f.size ≤ ex.max_file_size ∧
        ex.included_extensions.any (fun kv => kv.1 == strToLower (splitextExt p)) = true) := by
  rw [← is_file_valid_iff]
  constructor
  · rintro ⟨s, hs, hrel⟩
    rw [exportSections, List.mem_filterMap] at hs
    obtain ⟨q, hq, hqe⟩ := hs
    by_cases hv : is_file_valid ex q.1 q.2.size = true
    · rw [if_pos hv] at hqe
      have hsec := Option.some.inj hqe
      have hrels : relpath q.1 source_dir = relpath p source_dir := by
        rw [← hrel, ← hsec]
      have hqp : q = (p, f) := List.inj_on_of_nodup_map hnd hq hmem hrels
      rw [hqp] at hv
      exact hv
    · rw [if_neg hv] at hqe
      exact absurd hqe (by simp)
  · intro hv
    refine ⟨{ relative_path := relpath p source_dir,
              language := get_language_from_extension ex (strToLower (splitextExt f.name)),
              content := f.content }, ?_, rfl⟩
    rw [exportSections, List.mem_filterMap]
    exact ⟨(p, f), hmem, by rw [if_pos hv]⟩

/-- A small exporter admitting only `.py` files up to 1000 bytes. -/
def exPy : Exporter :=
  { source := "/s", excluded_dirs := [], max_file_size := 1000,
    included_extensions := [(".py", "python")], gitignore_patterns := [] }

/-- A source tree with an admitted `.py` file and a rejected `.png`
file. -/
def fsPy : FS :=
  FS.fileEntry "a.py" 10 "print" (FS.fileEntry "b.png" 5 "x" FS.nilEntries)

theorem claim1_witness :
    ∃ s ∈ exportSections exPy "/s" fsPy, s.relative_path = relpath "/s/a.py" "/s" :=
  (claim1_admission_invariant exPy "/s" fsPy "/s/a.py" ⟨"a.py", 10, "print"⟩
    (by decide) (by decide)).mpr (by decide)

/-! Unfolding lemmas for the traversal. -/

theorem walkVisited_nil (ex : Exporter) (root : String) :
    walkVisited ex root FS.nilEntries = [] := rfl

theorem walkVisited_file (ex : Exporter) (root n : String) (sz : Nat) (c : String) (rest : FS) :
    walkVisited ex root (FS.fileEntry n sz c rest) =
      (joinPath root n, ⟨n, sz, c⟩) :: walkVisited ex root rest := rfl

theorem walkVisited_dir (ex : Exporter) (root n : String) (children rest : FS) :
    walkVisited ex root (FS.dirEntry n children rest) =
      levelFiles root rest ++
        ((if is_excluded ex (joinPath root n) then []
          else walkVisited ex (joinPath root n) children) ++ walkAux ex root rest) := rfl

theorem walkVisited_split (ex : Exporter) (root : String) (fs : FS) :
    walkVisited ex root fs = levelFiles root fs ++ walkAux ex root fs := rfl

theorem filesWithChain_nil (root : String) : filesWithChain root FS.nilEntries = [] := rfl

theorem filesWithChain_file (root n : String) (sz : Nat) (c : String) (rest : FS) :
    filesWithChain root (FS.fileEntry n sz c rest) =
      (([] : List String), joinPath root n) :: filesWithChain root rest := rfl

theorem filesWithChain_dir (root n : String) (children rest : FS) :
    filesWithChain root (FS.dirEntry n children rest) =
      (levelFiles root rest).map (fun (q : String × FileEnt) => (([] : List String), q.1)) ++
        ((filesWithChain (joinPath root n) children).map
            (fun (q : List String × String) => (joinPath root n :: q.1, q.2)) ++
          chainAux root rest) := rfl

theorem filesWithChain_split (root : String) (fs : FS) :
    filesWithChain root fs =
      (levelFiles root fs).map (fun (q : String × FileEnt) => (([] : List String), q.1)) ++
        chainAux root fs := rfl

/-- Pushing a directory onto the chains leaves the file paths (the
second components) unchanged. -/
theorem map_snd_push (x : String) (l : List (List String × String)) :
    ((l.map (fun (q : List String × String) => (x :: q.1, q.2))).map Prod.snd) =
      l.map Prod.snd := by
  induction l with
  | nil => rfl
  | cons a t ih => simp [ih]

/-- Pairing level files with the empty chain keeps their paths (the
first components of the level entries). -/
theorem map_snd_pair0 (l : List (String × FileEnt)) :
    ((l.map (fun (q : String × FileEnt) => (([] : List String), q.1))).map Prod.snd) =
      l.map Prod.fst := by
  induction l with
  | nil => rfl
  | cons a t ih => simp [ih]

/-- Membership in the walk below a directory entry: either the
directory is not excluded and the file is visited inside it, or the
file is visited in the remaining entries. -/
theorem mem_walkVisited_dir (ex : Exporter) (root n : String) (children rest : FS)
    (x : String × FileEnt) :
    x ∈ walkVisited ex root (FS.dirEntry n children rest) ↔
      ((is_excluded ex (joinPath root n) = false ∧
          x ∈ walkVisited ex (joinPath root n) children) ∨
        x ∈ walkVisited ex root rest) := by
  rw [walkVisited_dir, walkVisited_split ex root rest]
  cases hexcl : is_excluded ex (joinPath root n) with
  | true =>
      simp [hexcl, List.mem_append]
  | false =>
      simp [hexcl, List.mem_append]
      tauto

/-- Membership in the unpruned file list below a directory entry. -/
theorem mem_filesWithChain_dir (root n : String) (children rest : FS)
    (y : List String × String) :
    y ∈ filesWithChain root (FS.dirEntry n children rest) ↔
      ((∃ q ∈ filesWithChain (joinPath root n) children, y = (joinPath root n :: q.1, q.2)) ∨
        y ∈ filesWithChain root rest) := by
  rw [filesWithChain_dir]
  constructor
  · intro h
    rcases List.mem_append.mp h with hA | hBC
    · right
      rw [filesWithChain_split root rest]
      exact List.mem_append_left _ hA
    · rcases List.mem_append.mp hBC with hB | hC
      · left
        obtain ⟨q, hq, hqe⟩ := List.mem_map.mp hB
        exact ⟨q, hq, hqe.symm⟩
      · right
        rw [filesWithChain_split root rest]
        exact List.mem_append_right _ hC
  · intro h
    rcases h with ⟨q, hq, hqe⟩ | hR
    · refine List.mem_append_right _ (List.mem_append_left _ ?_)
      rw [hqe]
      exact List.mem_map_of_mem _ hq
    · rw [filesWithChain_split root rest] at hR
      rcases List.mem_append.mp hR with hA | hC
      · exact List.mem_append_left _ hA
      · exact List.mem_append_right _ (List.mem_append_right _ hC)

/-- Every path visited by the pruned walk is a file path of the
unpruned tree. -/
theorem walk_path_mem_chain (ex : Exporter) (fs : FS) :
    ∀ (root p : String) (f : FileEnt), (p, f) ∈ walkVisited ex root fs →
      p ∈ (filesWithChain root fs).map Prod.snd := by
  induction fs with
  | nilEntries =>
      intro root p f h
      rw [walkVisited_nil] at h
      exact absurd h (List.not_mem_nil _)
  | fileEntry n sz c rest ih =>
      intro root p f h
      rw [walkVisited_file] at h
      rw [filesWithChain_file, List.map_cons]
      rcases List.mem_cons.mp h with heq | h2
      · have hp : p = joinPath root n := congrArg Prod.fst heq
        rw [hp]
        exact List.mem_cons_self _ _
      · exact List.mem_cons_of_mem _ (ih root p f h2)
  | dirEntry n children rest ihc ihr =>
      intro root p f h
      rcases (mem_walkVisited_dir ex root n children rest (p, f)).mp h with ⟨_, hc⟩ | hr
      · have h1 : p ∈ (filesWithChain (joinPath root n) children).map Prod.snd :=
          ihc (joinPath root n) p f hc
        rw [filesWithChain_dir, List.map_append, List.map_append, map_snd_push]
        exact List.mem_append_right _ (List.mem_append_left _ h1)
      · have h2 : p ∈ (filesWithChain root rest).map Prod.snd := ihr root p f hr
        rw [filesWithChain_dir, List.map_append, List.map_append]
        rw [filesWithChain_split root rest, List.map_append] at h2
        rcases List.mem_append.mp h2 with ha | hc2
        · exact List.mem_append_left _ ha
        · exact List.mem_append_right _ (List.mem_append_right _ hc2)

/-- Pruning: a file lying beneath some excluded directory of its
ancestor chain is never produced by the pruned walk (file paths
assumed pairwise distinct, as in a real filesystem). -/
theorem prune_never_visits (ex : Exporter) (fs : FS) :
    ∀ (root : String) (ch : List String) (p : String) (f : FileEnt),
      ((filesWithChain root fs).map Prod.snd).Nodup →
      (ch, p) ∈ filesWithChain root fs →
      (∃ q ∈ ch, is_excluded ex q = true) →
      (p, f) ∈ walkVisited ex root fs → False := by
  induction fs with
  | nilEntries =>
      intro root ch p f _ hmem _ _
      rw [filesWithChain_nil] at hmem
      exact absurd hmem (List.not_mem_nil _)
  | fileEntry n sz c rest ih =>
      intro root ch p f hnd hmem hex hvis
      rw [filesWithChain_file] at hmem
      rw [filesWithChain_file, List.map_cons] at hnd
      rw [walkVisited_file] at hvis
      rcases List.mem_cons.mp hmem with heq | hmem2
      · have hch : ch = [] := congrArg Prod.fst heq
        rw [hch] at hex
        obtain ⟨q, hq, _⟩ := hex
        exact absurd hq (List.not_mem_nil _)
      · rcases List.mem_cons.mp hvis with heq2 | hvis2
        · have hp : p = joinPath root n := congrArg Prod.fst heq2
          have hsnd : p ∈ (filesWithChain root rest).map Prod.snd :=
            List.mem_map_of_mem Prod.snd hmem2
          have hnotin := (List.nodup_cons.mp hnd).1
          rw [hp] at hsnd
          exact hnotin hsnd
        · exact ih root ch p f (List.nodup_cons.mp hnd).2 hmem2 hex hvis2
  | dirEntry n children rest ihc ihr =>
      intro root ch p f hnd hmem hex hvis
      have hnd2 := hnd
      rw [filesWithChain_dir, List.map_append, List.map_append, map_snd_push,
        map_snd_pair0] at hnd2
      have ndChild : ((filesWithChain (joinPath root n) children).map Prod.snd).Nodup :=
        (List.nodup_append.mp ((List.nodup_append.mp hnd2).2.1)).1
      have ndRest : ((filesWithChain root rest).map Prod.snd).Nodup := by
        rw [filesWithChain_split root rest, List.map_append, map_snd_pair0]
        have hA := (List.nodup_append.mp hnd2).1
        have hBC := (List.nodup_append.mp hnd2).2.1
        have hdisj := (List.nodup_append.mp hnd2).2.2
        have hC := (List.nodup_append.mp hBC).2.1
        refine List.nodup_append.mpr ⟨hA, hC, ?_⟩
        intro a ha hc
        exact hdisj ha (List.mem_append_right _ hc)
      have disjChildRest : ∀ a, a ∈ (filesWithChain (joinPath root n) children).map Prod.snd →
          a ∈ (filesWithChain root rest).map Prod.snd → False := by
        intro a haB haR
        rw [filesWithChain_split root rest, List.map_append, map_snd_pair0] at haR
        have hBC := (List.nodup_append.mp hnd2).2.1
        have hdisjA := (List.nodup_append.mp hnd2).2.2
        have hdisjBC := (List.nodup_append.mp hBC).2.2
        rcases List.mem_append.mp haR with ha | hc
        · exact hdisjA ha (List.mem_append_left _ haB)
        · exact hdisjBC haB hc
      rcases (mem_filesWithChain_dir root n children rest (ch, p)).mp hmem with
        ⟨q, hq, heq⟩ | hmemR
      · have hch : ch = joinPath root n :: q.1 := congrArg Prod.fst heq
        have hp : p = q.2 := congrArg Prod.snd heq
        rcases (mem_walkVisited_dir ex root n children rest (p, f)).mp hvis with
          ⟨hexcl, hvisC⟩ | hvisR
        · rw [hch] at hex
          obtain ⟨e, he, hee⟩ := hex
          rcases List.mem_cons.mp he with rfl | he2
          · rw [hee] at hexcl
            exact Bool.noConfusion hexcl
          · refine ihc (joinPath root n) q.1 p f ndChild ?_ ⟨e, he2, hee⟩ hvisC
            rw [hp]
            exact hq
        · have h1 : p ∈ (filesWithChain (joinPath root n) children).map Prod.snd := by
            rw [hp]
            exact List.mem_map_of_mem Prod.snd hq
          have h2 : p ∈ (filesWithChain root rest).map Prod.snd :=
            walk_path_mem_chain ex rest root p f hvisR
          exact disjChildRest p h1 h2
      · rcases (mem_walkVisited_dir ex root n children rest (p, f)).mp hvis with
          ⟨hexcl, hvisC⟩ | hvisR
        · have h1 : p ∈ (filesWithChain (joinPath root n) children).map Prod.snd :=
            walk_path_mem_chain ex children (joinPath root n) p f hvisC
          have h2 : p ∈ (filesWithChain root rest).map Prod.snd :=
            List.mem_map_of_mem Prod.snd hmemR
          exact disjChildRest p h1 h2
        · exact ihr root ch p f ndRest hmemR hex hvisR

/-- Claim C8: directories for which `is_excluded` holds are removed
from the descent list before recursing, so no file lying beneath an
excluded directory of its ancestor chain is ever visited by the walk —
and `walkVisited` is exactly the list of files `export` evaluates with
`is_file_valid` and possibly reads (pruning, not post-filtering).
File paths of the tree are assumed pairwise distinct, as in a real
filesystem. -/
theorem claim8_pruning_short_circuits (ex : Exporter) (root : String) (fs : FS)
    (ch : List String) (p : String)
    (hnd : ((filesWithChain root fs).map Prod.snd).Nodup)
    (hmem : (ch, p) ∈ filesWithChain root fs)
    (hex : ∃ q ∈ ch, is_excluded ex q = true) :
    ∀ f : FileEnt, (p, f) ∉ walkVisited ex root fs :=
  fun f hvis => prune_never_visits ex fs root ch p f hnd hmem hex hvis

/-- An exporter excluding directory `build`. -/
def exPrune : Exporter :=
  { source := "/s", excluded_dirs := ["build"], max_file_size := 1048576,
    included_extensions := [(".py", "python")], gitignore_patterns := [] }

/-- A tree with a file beneath the excluded `build` directory. -/
def fsPrune : FS :=
  FS.dirEntry "build" (FS.fileEntry "x.py" 1 "c" FS.nilEntries)
    (FS.fileEntry "a.py" 10 "print" FS.nilEntries)

theorem claim8_witness :
    ("/s/build/x.py", (⟨"x.py", 1, "c"⟩ : FileEnt)) ∉ walkVisited exPrune "/s" fsPrune :=
  claim8_pruning_short_circuits exPrune "/s" fsPrune ["/s/build"] "/s/build/x.py"
    (by decide) (by decide) ⟨"/s/build", by decide, by decide⟩ ⟨"x.py", 1, "c"⟩

example : fnmatch "app.log" "*.log" = true := by decide
example : fnmatch "logs/app.log" "*.log" = true := by decide
example : fnmatch "app.logx" "*.log" = false := by decide
example : fnmatch "a.py" "a.p?" = true := by decide
example : fnmatch "a.py" "[ab].py" = true := by decide
example : fnmatch "c.py" "[ab].py" = false := by decide
example : fnmatch "c.py" "[!ab].py" = true := by decide
example : relpath "/src/buildx/out.py" "/src" = "buildx/out.py" := by decide
example : relpath "/src" "/src" = "." := by decide
example : joinPath "/src" "build" = "/src/build" := by decide
example : splitextExt "/a/b/c.PY" = ".PY" := by decide
example : splitextExt "/a/.gitignore" = "" := by decide
example : splitextExt "a.tar.gz" = ".gz" := by decide
example : strToLower ".PY" = ".py" := by decide
